import Mathlib

/-!
Verification of the VSRTL address-space subsystem (`src/core/vsrtl_addressspace.h`).

The C++ source defines two classes:

* `AddressSpace` — a sparse byte-addressable memory backed by
  `std::unordered_map<VSRTL_VT_U, uint8_t> m_data`, with little-endian
  multi-byte `writeMem`/`readMem`/`readMemConst`, a `contains` probe, and
  re-initialization from recorded segments (`addInitializationMemory`,
  `reset`).
* `AddressSpaceMM` — extends it with memory-mapped regions held in
  `std::map<uint32_t, MMapValue> m_mmapRegions`, keyed by the last address a
  region covers, dispatching reads/writes that hit a region to externally
  owned callbacks.

The embedding below models the unordered byte map as an association list
(unique keys; insert updates in place or appends), the ordered region map as
an association list sorted in strictly ascending key order, and the machine
integer type `VSRTL_VT_U` (a 32-bit unsigned integer, per the repository
interface contract: addresses and values are 32-bit unsigned) as `Nat`
reduced modulo `2 ^ 32` wherever the C++ arithmetic wraps.  The `assert`
calls guarding `addIORegion`/`removeIORegion` are modelled by returning
`Option`: `none` means the fatal precondition fired.  The externally owned
I/O callbacks (`IOFunctors`) are opaque to the address space — it only
stores and forwards them — so they are modelled as an opaque payload type
`ι`, and a dispatched call is modelled as an effect value recording which
payload was invoked and with which rebased offset and arguments.
-/

namespace VSRTL

/-- Arithmetic of the 32-bit unsigned `VSRTL_VT_U` / `uint32_t`: reduction
modulo `2 ^ 32 = 4294967296`. -/
def w32 (n : Nat) : Nat := n % 4294967296

/-- The sparse byte store `m_data : std::unordered_map<VSRTL_VT_U, uint8_t>`:
an association list from address to byte.  Keys are unique by construction
(`storeSet` updates in place); entry order carries no meaning, matching the
unordered container. -/
abbrev Store := List (Nat × Nat)

/-- Lookup of a key in the byte store (`m_data.find` / `m_data.at` /
`m_data.count`). -/
def storeLookup : Store → Nat → Option Nat
  | [], _ => none
  | e :: es, a => if e.1 = a then some e.2 else storeLookup es a

/-- Keyed assignment `m_data[a] = v`: update the existing entry in place, or
insert a fresh one. -/
def storeSet : Store → Nat → Nat → Store
  | [], a, v => [(a, v)]
  | e :: es, a, v => if e.1 = a then (a, v) :: es else e :: storeSet es a v

/-- `AddressSpace::contains(address)`: `m_data.count(address) > 0`. -/
def contains (s : Store) (address : Nat) : Bool :=
  (storeLookup s address).isSome

/-- `m_data[a]` as an rvalue: `std::unordered_map::operator[]` returns the
stored byte, value-initializing (to 0) and inserting an entry when the key is
absent.  Returns the byte read and the possibly grown store. -/
def mapIndex (s : Store) (a : Nat) : Nat × Store :=
  match storeLookup s a with
  | some v => (v, s)
  | none => (0, storeSet s a 0)

/-- `AddressSpace::writeMem(address, value, size)`:
`for i in [0, size): m_data[address + i] = value & 0xff; value >>= 8`.
The value parameter is a `VSRTL_VT_U`, hence reduced by `w32` on entry, and
each store address is the 32-bit sum `address + i`. -/
def writeMem (s : Store) (address value : Nat) (size : Nat) : Store :=
  ((List.range size).foldl
    (fun acc i => (storeSet acc.1 (w32 (address + i)) (acc.2 &&& 0xff), acc.2 >>> 8))
    (s, w32 value)).1

/-- `AddressSpace::readMem(address, width)`:
`for i in [0, width): value |= m_data[address++] << (i * CHAR_BIT)`.
`operator[]` may insert zero-bytes for absent keys, so the (possibly grown)
store is returned along with the assembled value; the `VSRTL_VT_U`
accumulator wraps at 32 bits. -/
def readMem (s : Store) (address : Nat) (width : Nat) : Nat × Store :=
  (List.range width).foldl
    (fun acc i =>
      (w32 (acc.1 ||| (mapIndex acc.2 (w32 (address + i))).1 <<< (8 * i)),
       (mapIndex acc.2 (w32 (address + i))).2))
    (0, s)

/-- `AddressSpace::readMemConst(address, width)` (a `const` method):
`for i in [0, width): value |= contains(address) ? m_data.at(address) << (i * CHAR_BIT) : 0; address++`. -/
def readMemConst (s : Store) (address : Nat) (width : Nat) : Nat :=
  (List.range width).foldl
    (fun value i =>
      w32 (value |||
        (if contains s (w32 (address + i))
         then (storeLookup s (w32 (address + i))).getD 0 <<< (8 * i)
         else 0)))
    0

/-- The call `readMemConst` viewed as a state transition on the byte store:
the method is `const` and its body invokes only the non-mutating map
operations `count` (via `contains`) and `at`, so the resulting store is the
input store itself. -/
def readMemConstCall (s : Store) (address width : Nat) : Nat × Store :=
  (readMemConst s address width, s)

/-- `AddressSpace::RegionType`.  (`Io` stands for the source's `IO`
constructor.) -/
inductive RegionType where
  | Program
  | Io
deriving DecidableEq

/-- `AddressSpace::regionType(address)`: the base class always reports
`Program`. -/
def baseRegionType (_address : Nat) : RegionType := RegionType.Program

/-- State of an `AddressSpace` object: the live byte store and the recorded
initialization memories (each itself a byte store, in registration order). -/
structure AddrSpace where
  m_data : Store
  m_initializationMemories : List Store
deriving DecidableEq

/-- The segment built by `AddressSpace::addInitializationMemory(startAddr,
program, n)`: a fresh `AddressSpace` receiving
`for i in [0, n): mem.writeMem(addr, program[i], sizeof(T)); addr += sizeof(T)`.
`program` lists the `n` elements, `elemSize = sizeof(T)`. -/
def buildInitSegment (startAddr elemSize : Nat) (program : List Nat) : Store :=
  (program.foldl
    (fun (acc : Store × Nat) p => (writeMem acc.1 acc.2 p elemSize, acc.2 + elemSize))
    ([], startAddr)).1

/-- `AddressSpace::addInitializationMemory`: appends the new segment
(`emplace_back`). -/
def addInitializationMemory (st : AddrSpace) (startAddr elemSize : Nat)
    (program : List Nat) : AddrSpace :=
  { st with m_initializationMemories :=
      (st.m_initializationMemories ++ [buildInitSegment startAddr elemSize program]) }

/-- `AddressSpace::clearInitializationMemories`. -/
def clearInitializationMemories (st : AddrSpace) : AddrSpace :=
  { st with m_initializationMemories := [] }

/-- `AddressSpace::reset()`: `m_data.clear()`, then for every recorded memory
in order, for each of its `(address, byte)` entries,
`writeMem(address, byte, sizeof(uint8_t) = 1)`.  The entries of one segment
have pairwise distinct keys, so the unordered iteration order within a
segment does not affect the result; the association list order is used. -/
def reset (st : AddrSpace) : AddrSpace :=
  { st with m_data :=
      (st.m_initializationMemories.foldl
        (fun d seg => seg.foldl (fun d e => writeMem d e.1 e.2 1) d)
        []) }

/-- `AddressSpaceMM::MMapValue`: base address and size of a region plus its
I/O capabilities.  The callbacks are externally owned and opaque to the
address space, modelled by the payload `io : ι`. -/
structure MMapValue (ι : Type) where
  base : Nat
  size : Nat
  io : ι
deriving DecidableEq

/-- `m_mmapRegions : std::map<uint32_t, MMapValue>`: an association list in
strictly ascending key order (the key is the last address the region
covers). -/
abbrev MMapRegions (ι : Type) := List (Nat × MMapValue ι)

/-- `AddressSpaceMM::findMMapRegion(address)`: if the map is empty return
null; otherwise take `lower_bound(address)` — on the sorted list, the first
entry whose key is `≥ address` — return null when past the end or when
`address < candidate.base`, else the candidate. -/
def findMMapRegion {ι : Type} (rs : MMapRegions ι) (address : Nat) :
    Option (MMapValue ι) :=
  if rs.isEmpty then none
  else
    match rs.find? (fun e => decide (address ≤ e.1)) with
    | none => none
    | some e => if address < e.2.base then none else some e.2

/-- Keyed assignment `m_mmapRegions[k] = v` on the ordered map: insert at the
sorted position, replacing an existing entry with the same key. -/
def mapInsert {ι : Type} : MMapRegions ι → Nat → MMapValue ι → MMapRegions ι
  | [], k, v => [(k, v)]
  | e :: es, k, v =>
    if k < e.1 then (k, v) :: e :: es
    else if k = e.1 then (k, v) :: es
    else e :: mapInsert es k v

/-- Erase the entry with the given key, when present
(`m_mmapRegions.erase(it)`). -/
def mapErase {ι : Type} : MMapRegions ι → Nat → MMapRegions ι
  | [], _ => []
  | e :: es, k => if e.1 = k then es else e :: mapErase es k

/-- The `uint32_t` computation `baseAddr + size - 1`: since the subtraction
wraps modulo `2 ^ 32`, it equals `(baseAddr + size + (2 ^ 32 - 1)) % 2 ^ 32`
for every `size`, including `size = 0`. -/
def lastAddr (baseAddr size : Nat) : Nat := w32 (baseAddr + size + 4294967295)

/-- `AddressSpaceMM::addIORegion(baseAddr, size, io)`: asserts
`findMMapRegion(baseAddr) == nullptr && findMMapRegion(baseAddr + size - 1) == nullptr`
and `size > 0`, then stores `m_mmapRegions[baseAddr + size - 1] = {baseAddr, size, io}`.
`none` models a fired assertion. -/
def addIORegion {ι : Type} (rs : MMapRegions ι) (baseAddr size : Nat) (io : ι) :
    Option (MMapRegions ι) :=
  if (findMMapRegion rs (w32 baseAddr)).isNone ∧
      (findMMapRegion rs (lastAddr baseAddr size)).isNone ∧ 0 < size then
    some (mapInsert rs (lastAddr baseAddr size) ⟨w32 baseAddr, size, io⟩)
  else none

/-- `AddressSpaceMM::removeIORegion(baseAddr, size)`: looks up the key
`baseAddr + size - 1`, asserts the entry exists (`none` models the fired
assertion), and erases it. -/
def removeIORegion {ι : Type} (rs : MMapRegions ι) (baseAddr size : Nat) :
    Option (MMapRegions ι) :=
  if (rs.find? (fun e => decide (e.1 = lastAddr baseAddr size))).isSome then
    some (mapErase rs (lastAddr baseAddr size))
  else none

/-- State of an `AddressSpaceMM` object: the inherited byte store plus the
region map. -/
structure MMState (ι : Type) where
  data : Store
  regions : MMapRegions ι
deriving DecidableEq

/-- Outcome of `AddressSpaceMM::writeMem`: either the region's `ioWrite`
callback is invoked with a relative offset, or the base-class `writeMem`
updates the byte store. -/
inductive WriteEffect (ι : Type) where
  | ioFwd (io : ι) (offset value size : Nat)
  | storeWrite (s : Store)
deriving DecidableEq

/-- Outcome of `AddressSpaceMM::readMem`: either the region's `ioRead`
callback is invoked with a relative offset, or the base-class `readMem`
produces a value and a possibly grown byte store. -/
inductive ReadEffect (ι : Type) where
  | ioFwd (io : ι) (offset width : Nat)
  | storeRead (value : Nat) (s : Store)
deriving DecidableEq

/-- Outcome of `AddressSpaceMM::readMemConst`: either the region's `ioRead`
callback is invoked with a relative offset, or the base-class `readMemConst`
produces a value (and cannot touch the store). -/
inductive ConstReadEffect (ι : Type) where
  | ioFwd (io : ι) (offset width : Nat)
  | storeRead (value : Nat)
deriving DecidableEq

/-- `AddressSpaceMM::writeMem(address, value, size)`:
if `findMMapRegion(address)` hits a region `r`, call
`r.io.ioWrite(address - r.base, value, size)`; otherwise
`AddressSpace::writeMem(address, value, size)`. -/
def writeMemMM {ι : Type} (st : MMState ι) (address value size : Nat) :
    WriteEffect ι :=
  match findMMapRegion st.regions address with
  | some r => WriteEffect.ioFwd r.io (address - r.base) value size
  | none => WriteEffect.storeWrite (writeMem st.data address value size)

/-- `AddressSpaceMM::readMem(address, width)`:
if `findMMapRegion(address)` hits a region `r`, return
`r.io.ioRead(address - r.base, width)`; otherwise
`AddressSpace::readMem(address, width)`. -/
def readMemMM {ι : Type} (st : MMState ι) (address width : Nat) : ReadEffect ι :=
  match findMMapRegion st.regions address with
  | some r => ReadEffect.ioFwd r.io (address - r.base) width
  | none =>
    ReadEffect.storeRead (readMem st.data address width).1 (readMem st.data address width).2

/-- `AddressSpaceMM::readMemConst(address, width)`:
if `findMMapRegion(address)` hits a region `r`, return
`r.io.ioRead(address - r.base, width)`; otherwise
`AddressSpace::readMemConst(address, width)`. -/
def readMemConstMM {ι : Type} (st : MMState ι) (address width : Nat) :
    ConstReadEffect ι :=
  match findMMapRegion st.regions address with
  | some r => ConstReadEffect.ioFwd r.io (address - r.base) width
  | none => ConstReadEffect.storeRead (readMemConst st.data address width)

/-- `AddressSpaceMM::regionType(address)`: `Io` iff `findMMapRegion` hits a
region, else `Program`. -/
def regionTypeMM {ι : Type} (rs : MMapRegions ι) (address : Nat) : RegionType :=
  match findMMapRegion rs address with
  | some _ => RegionType.Io
  | none => RegionType.Program

/-- The entry `e` of the region map covers address `a`: `e.2.base ≤ a` and
`a` does not exceed the entry's key (the last address of the region). -/
abbrev covers {ι : Type} (e : Nat × MMapValue ι) (a : Nat) : Prop :=
  e.2.base ≤ a ∧ a ≤ e.1

/-- Well-formedness of the region map as maintained intendedly by
`addIORegion`: every entry has a positive size, fits in the 32-bit address
space, and is keyed by its last covered address `base + size - 1`; and the
(ascending, unique-key) entries are pairwise disjoint — every earlier
entry's last address lies strictly below every later entry's base. -/
abbrev regionsWF {ι : Type} (rs : MMapRegions ι) : Prop :=
  (∀ e ∈ rs, 0 < e.2.size ∧ e.2.base + e.2.size ≤ 4294967296 ∧
      e.1 = e.2.base + e.2.size - 1) ∧
  rs.Pairwise (fun e f => e.1 < f.2.base)

/-- Written from the specification's words for the reset guarantee, to be
compared with the store `reset` computes: the union of all initialization
segments' bytes at `a`, where a later segment's byte takes precedence over
an earlier one's. -/
def specSegmentsUnion (segs : List Store) (a : Nat) : Option Nat :=
  segs.foldl
    (fun acc seg =>
      match storeLookup seg a with
      | some b => some b
      | none => acc)
    none

/-! ### Helper lemmas about the byte store -/

lemma storeLookup_storeSet (s : Store) (a v x : Nat) :
    storeLookup (storeSet s a v) x = if x = a then some v else storeLookup s x := by
  induction s with
  | nil => by_cases h : x = a <;> simp [storeSet, storeLookup, h, Ne.symm]
  | cons e es ih =>
    simp only [storeSet]
    by_cases h1 : e.1 = a
    · by_cases h2 : x = a <;> simp [storeLookup, h1, h2, Ne.symm]
    · by_cases h2 : e.1 = x
      · have hxa : ¬ x = a := by rw [← h2]; exact h1
        simp [storeLookup, h1, h2, hxa]
      · simp [storeLookup, h1, h2, ih]

lemma storeLookup_eq_none_of_not_mem (es : Store) (x : Nat)
    (h : x ∉ es.map Prod.fst) : storeLookup es x = none := by
  induction es with
  | nil => rfl
  | cons e es ih =>
    simp only [List.map_cons, List.mem_cons] at h
    push_neg at h
    simp [storeLookup, Ne.symm h.1, ih h.2]

/-! ### Helper lemmas for the little-endian byte arithmetic -/

lemma lor_mul_pow_eq_add {x : Nat} (k y : Nat) (hx : x < 2 ^ k) :
    x ||| y * 2 ^ k = x + y * 2 ^ k := by
  calc x ||| y * 2 ^ k = 2 ^ k * y ||| x := by rw [Nat.or_comm, Nat.mul_comm]
    _ = 2 ^ k * y + x := (Nat.mul_add_lt_is_or hx y).symm
    _ = x + y * 2 ^ k := by rw [Nat.add_comm, Nat.mul_comm]

lemma lor_mul_256 {x : Nat} (y : Nat) (hx : x < 256) :
    x ||| y * 256 = x + y * 256 := by
  have h := lor_mul_pow_eq_add 8 y (x := x) (by norm_num; omega)
  norm_num at h
  exact h

lemma lor_mul_65536 {x : Nat} (y : Nat) (hx : x < 65536) :
    x ||| y * 65536 = x + y * 65536 := by
  have h := lor_mul_pow_eq_add 16 y (x := x) (by norm_num; omega)
  norm_num at h
  exact h

lemma lor_mul_16777216 {x : Nat} (y : Nat) (hx : x < 16777216) :
    x ||| y * 16777216 = x + y * 16777216 := by
  have h := lor_mul_pow_eq_add 24 y (x := x) (by norm_num; omega)
  norm_num at h
  exact h

lemma and_255 (x : Nat) : x &&& 255 = x % 256 := by
  have h := Nat.and_pow_two_sub_one_eq_mod x 8
  norm_num at h
  exact h

lemma shiftRight_eight (x : Nat) : x >>> 8 = x / 256 := by
  have h := Nat.shiftRight_eq_div_pow x 8
  norm_num at h
  exact h

/-! ### Helper lemmas about reads of absent addresses -/

lemma readMemConst_absent_zero (s : Store) (a w : Nat)
    (h : ∀ i, i < w → storeLookup s (w32 (a + i)) = none) :
    readMemConst s a w = 0 := by
  induction w with
  | zero => rfl
  | succ n ih =>
    have hr : List.range (n + 1) = List.range n ++ [n] := List.range_succ n
    have hn : readMemConst s a n = 0 := ih (fun i hi => h i (Nat.lt_succ_of_lt hi))
    simp only [readMemConst, hr, List.foldl_append, List.foldl_cons, List.foldl_nil] at hn ⊢
    rw [hn]
    have h2 : storeLookup s ((a + n) % 4294967296) = none := h n (Nat.lt_succ_self n)
    simp [contains, w32, h2]

lemma readMem_absent_zero (s : Store) (a w : Nat)
    (h : ∀ i, i < w →
      storeLookup s (w32 (a + i)) = none ∨ storeLookup s (w32 (a + i)) = some 0) :
    (readMem s a w).1 = 0 ∧
    (∀ x, storeLookup (readMem s a w).2 x = storeLookup s x ∨
      storeLookup (readMem s a w).2 x = some 0) := by
  induction w with
  | zero => exact ⟨rfl, fun x => Or.inl rfl⟩
  | succ n ih =>
    obtain ⟨ihv, ihs⟩ := ih (fun i hi => h i (Nat.lt_succ_of_lt hi))
    have hr : List.range (n + 1) = List.range n ++ [n] := List.range_succ n
    have hbyte : (mapIndex (readMem s a n).2 (w32 (a + n))).1 = 0 ∧
        (∀ x, storeLookup (mapIndex (readMem s a n).2 (w32 (a + n))).2 x =
            storeLookup s x ∨
          storeLookup (mapIndex (readMem s a n).2 (w32 (a + n))).2 x = some 0) := by
      unfold mapIndex
      rcases ihs (w32 (a + n)) with hs | hs
      · rcases h n (Nat.lt_succ_self n) with h0 | h0 <;> rw [hs, h0]
        · refine ⟨rfl, fun x => ?_⟩
          rw [storeLookup_storeSet]
          by_cases hx : x = w32 (a + n) <;> simp [hx, ihs x]
        · exact ⟨rfl, ihs⟩
      · rw [hs]
        exact ⟨rfl, ihs⟩
    constructor
    · simp only [readMem, hr, List.foldl_append, List.foldl_cons, List.foldl_nil]
      have hv : ((List.range n).foldl
          (fun acc i =>
            (w32 (acc.1 ||| (mapIndex acc.2 (w32 (a + i))).1 <<< (8 * i)),
             (mapIndex acc.2 (w32 (a + i))).2))
          (0, s)) = readMem s a n := rfl
      rw [hv, ihv, hbyte.1]
      simp [w32]
    · intro x
      simp only [readMem, hr, List.foldl_append, List.foldl_cons, List.foldl_nil]
      have hv : ((List.range n).foldl
          (fun acc i =>
            (w32 (acc.1 ||| (mapIndex acc.2 (w32 (a + i))).1 <<< (8 * i)),
             (mapIndex acc.2 (w32 (a + i))).2))
          (0, s)) = readMem s a n := rfl
      rw [hv]
      exact hbyte.2 x

/-! ### Helper lemmas about the region map -/

lemma findMMapRegion_eq {ι : Type} (rs : MMapRegions ι) (a : Nat) :
    findMMapRegion rs a =
      (match rs.find? (fun e => decide (a ≤ e.1)) with
      | none => none
      | some e => if a < e.2.base then none else some e.2) := by
  cases rs <;> simp [findMMapRegion]

lemma findMMapRegion_covers_eq {ι : Type} {rs : MMapRegions ι}
    (hp : rs.Pairwise (fun e f => e.1 < f.2.base)) {e : Nat × MMapValue ι} {a : Nat}
    (he : e ∈ rs) (hc : covers e a) : findMMapRegion rs a = some e.2 := by
  induction rs with
  | nil => cases he
  | cons f fs ih =>
    obtain ⟨hp1, hp2⟩ := List.pairwise_cons.mp hp
    rw [findMMapRegion_eq]
    by_cases hf : a ≤ f.1
    · rw [List.find?_cons_of_pos _ (by simpa using hf)]
      rcases List.mem_cons.mp he with rfl | hes
      · simp [Nat.not_lt.mpr hc.1]
      · exact absurd hc.1 (Nat.not_le.mpr (Nat.lt_of_le_of_lt hf (hp1 e hes)))
    · rw [List.find?_cons_of_neg _ (by simpa using hf)]
      rcases List.mem_cons.mp he with rfl | hes
      · exact absurd hc.2 hf
      · rw [← findMMapRegion_eq]
        exact ih hp2 hes

lemma findMMapRegion_none_iff {ι : Type} {rs : MMapRegions ι}
    (hp : rs.Pairwise (fun e f => e.1 < f.2.base)) (a : Nat) :
    findMMapRegion rs a = none ↔ ∀ e ∈ rs, ¬ covers e a := by
  induction rs with
  | nil => simp [findMMapRegion]
  | cons f fs ih =>
    obtain ⟨hp1, hp2⟩ := List.pairwise_cons.mp hp
    rw [findMMapRegion_eq]
    by_cases hf : a ≤ f.1
    · rw [List.find?_cons_of_pos _ (by simpa using hf)]
      by_cases hb : a < f.2.base
      · simp only [if_pos hb]
        constructor
        · intro _ e he
          rcases List.mem_cons.mp he with rfl | hes
          · exact fun hc => absurd hc.1 (Nat.not_le.mpr hb)
          · exact fun hc =>
              absurd hc.1 (Nat.not_le.mpr (Nat.lt_of_le_of_lt hf (hp1 e hes)))
        · intro _
          trivial
      · simp only [if_neg hb]
        constructor
        · intro hcontra
          cases hcontra
        · intro hall
          exact absurd ⟨Nat.not_lt.mp hb, hf⟩ (hall f (List.mem_cons_self f fs))
    · rw [List.find?_cons_of_neg _ (by simpa using hf)]
      rw [← findMMapRegion_eq]
      rw [ih hp2]
      constructor
      · intro hall e he
        rcases List.mem_cons.mp he with rfl | hes
        · exact fun hc => absurd hc.2 hf
        · exact hall e hes
      · intro hall e he
        exact hall e (List.mem_cons_of_mem f he)

lemma mem_mapErase {ι : Type} {rs : MMapRegions ι}
    (hnd : (rs.map Prod.fst).Nodup) (k : Nat) (e : Nat × MMapValue ι) :
    e ∈ mapErase rs k ↔ (e ∈ rs ∧ e.1 ≠ k) := by
  induction rs with
  | nil => simp [mapErase]
  | cons f fs ih =>
    simp only [List.map_cons, List.nodup_cons] at hnd
    rw [mapErase]
    by_cases hf : f.1 = k
    · simp only [if_pos hf]
      constructor
      · intro hes
        refine ⟨List.mem_cons_of_mem f hes, ?_⟩
        intro hek
        apply hnd.1
        rw [hf, ← hek]
        exact List.mem_map_of_mem Prod.fst hes
      · intro ⟨hmem, hek⟩
        rcases List.mem_cons.mp hmem with rfl | hes
        · exact absurd hf hek
        · exact hes
    · simp only [if_neg hf]
      constructor
      · intro hmem
        rcases List.mem_cons.mp hmem with rfl | hes
        · exact ⟨List.mem_cons_self e fs, fun hh => hf hh⟩
        · obtain ⟨h1, h2⟩ := (ih hnd.2).mp hes
          exact ⟨List.mem_cons_of_mem f h1, h2⟩
      · intro ⟨hmem, hek⟩
        rcases List.mem_cons.mp hmem with rfl | hes
        · exact List.mem_cons_self e _
        · exact List.mem_cons_of_mem f ((ih hnd.2).mpr ⟨hes, hek⟩)

/-! ### Helper lemmas about initialization replay -/

lemma writeMem_one (d : Store) (k v : Nat) (hk : k < 4294967296) (hv : v < 256) :
    writeMem d k v 1 = storeSet d k v := by
  have h1 : w32 k = k := by simp [w32]; omega
  have h2 : w32 v &&& 255 = v := by
    rw [and_255]
    simp [w32]
    omega
  simp [writeMem, List.range_succ, h1, h2]

lemma segment_replay (seg : Store) (hnd : (seg.map Prod.fst).Nodup)
    (hb : ∀ e ∈ seg, e.1 < 4294967296 ∧ e.2 < 256) :
    ∀ d x, storeLookup (seg.foldl (fun d e => writeMem d e.1 e.2 1) d) x =
      (match storeLookup seg x with
      | some b => some b
      | none => storeLookup d x) := by
  induction seg with
  | nil => intro d x; rfl
  | cons e es ih =>
    intro d x
    simp only [List.map_cons, List.nodup_cons] at hnd
    have hbe := hb e (List.mem_cons_self e es)
    rw [List.foldl_cons,
      ih hnd.2 (fun f hf => hb f (List.mem_cons_of_mem e hf)),
      writeMem_one d e.1 e.2 hbe.1 hbe.2]
    by_cases hx : e.1 = x
    · have : storeLookup es x = none := by
        apply storeLookup_eq_none_of_not_mem
        rw [← hx]
        exact hnd.1
      rw [this]
      simp [storeLookup, storeLookup_storeSet, hx]
    · simp only [storeLookup, hx]
      cases storeLookup es x with
      | some b => rfl
      | none =>
        rw [storeLookup_storeSet]
        simp [Ne.symm hx]

lemma reset_fold (segs : List Store)
    (h : ∀ seg ∈ segs, (seg.map Prod.fst).Nodup ∧
      ∀ e ∈ seg, e.1 < 4294967296 ∧ e.2 < 256) :
    ∀ d x, storeLookup
        (segs.foldl (fun d seg => seg.foldl (fun d e => writeMem d e.1 e.2 1) d) d) x =
      segs.foldl
        (fun acc seg =>
          match storeLookup seg x with
          | some b => some b
          | none => acc)
        (storeLookup d x) := by
  induction segs with
  | nil => intro d x; rfl
  | cons s1 rest ih =>
    intro d x
    have hs1 := h s1 (List.mem_cons_self s1 rest)
    rw [List.foldl_cons, List.foldl_cons,
      ih (fun seg hseg => h seg (List.mem_cons_of_mem s1 hseg)),
      segment_replay s1 hs1.1 hs1.2 d x]

/-! ### Claim theorems -/

/-- C1.  The claim states that non-overlap of I/O regions is an invariant
enforced by `addIORegion`'s fatal precondition.  The precondition does fire
on the claim's concrete example (adding `[0x1000, 0x1FFF]` while
`[0x1800, 0x27FF]` is registered), but the assert probes only the two
endpoints of the new region, so a new region that strictly contains an
existing region is accepted: with `[0x1800, 0x18FF]` registered, adding
`[0x1000, 0x1FFF]` completes without the fatal precondition and leaves two
regions that both cover address `0x1800` — contradicting the code's own
comment ("Assert that there lies no memory regions within the region that we
are about to insert") and assert message. -/
theorem addIORegion_containment_escape :
    addIORegion ([(0x27FF, ⟨0x1800, 0x1000, 0⟩)] : MMapRegions Nat) 0x1000 0x1000 1 =
      none ∧
    ((addIORegion ([] : MMapRegions Nat) 0x1800 0x100 0).bind
        (fun m => addIORegion m 0x1000 0x1000 1)) =
      some [(0x18FF, ⟨0x1800, 0x100, 0⟩), (0x1FFF, ⟨0x1000, 0x1000, 1⟩)] ∧
    covers ((0x18FF, ⟨0x1800, 0x100, 0⟩) : Nat × MMapValue Nat) 0x1800 ∧
    covers ((0x1FFF, ⟨0x1000, 0x1000, 1⟩) : Nat × MMapValue Nat) 0x1800 := by
  decide

/-- C2 (counterexample).  The claim states that `removeIORegion(base, size)`
is fatal unless a region with that exact base and size exists, in particular
for a mismatched base whose `base + size - 1` equals an existing region's
last address.  The code only looks up the key `base + size - 1`: with the
region `base 0x1000, size 0x1000` (last address `0x1FFF`) registered,
`removeIORegion(0x1800, 0x800)` also targets key `0x1FFF`, does not trigger
the fatal precondition, and removes the region, although `0x1800` is not the
registered base. -/
theorem removeIORegion_mismatched_base_not_fatal :
    removeIORegion ([(0x1FFF, ⟨0x1000, 0x1000, 0⟩)] : MMapRegions Nat) 0x1800 0x800 =
      some [] ∧
    (0x1800 : Nat) ≠ 0x1000 := by
  decide

/-- C2 (amended).  `removeIORegion(base, size)` removes exactly the region
keyed by `base + size - 1`; its fatal precondition fires if and only if no
registered region's last address equals `base + size - 1`.  The registered
base and size themselves are not checked: any `(base, size)` pair with a
matching last address removes that region. -/
theorem removeIORegion_keyed_only {ι : Type} (rs : MMapRegions ι) (b s : Nat)
    (hnd : (rs.map Prod.fst).Nodup) :
    (removeIORegion rs b s = none ↔ ∀ e ∈ rs, e.1 ≠ lastAddr b s) ∧
    (∀ rs', removeIORegion rs b s = some rs' →
      ∀ e, e ∈ rs' ↔ (e ∈ rs ∧ e.1 ≠ lastAddr b s)) := by
  have hiff : (rs.find? (fun e => decide (e.1 = lastAddr b s))).isSome = true ↔
      ∃ e ∈ rs, e.1 = lastAddr b s := by
    rw [List.find?_isSome]
    simp
  constructor
  · constructor
    · intro h e he hk
      have hs : (rs.find? (fun e => decide (e.1 = lastAddr b s))).isSome = true :=
        hiff.mpr ⟨e, he, hk⟩
      rw [removeIORegion, if_pos hs] at h
      cases h
    · intro hall
      rw [removeIORegion, if_neg]
      intro hsome
      obtain ⟨e, he, hk⟩ := hiff.mp hsome
      exact hall e he hk
  · intro rs' hsome e
    rw [removeIORegion] at hsome
    by_cases hf : (rs.find? (fun e => decide (e.1 = lastAddr b s))).isSome = true
    · rw [if_pos hf] at hsome
      rw [← Option.some.inj hsome]
      exact mem_mapErase hnd (lastAddr b s) e
    · rw [if_neg hf] at hsome
      cases hsome

/-- C2 (witness for the amended theorem): applied to the single region
`base 0x1000, size 0x1000` with the mismatched call arguments
`(0x1800, 0x800)`. -/
theorem removeIORegion_keyed_only_witness :
    (([(0x1FFF, ⟨0x1000, 0x1000, 0⟩)] : MMapRegions Nat).map Prod.fst).Nodup ∧
    ((removeIORegion ([(0x1FFF, ⟨0x1000, 0x1000, 0⟩)] : MMapRegions Nat) 0x1800 0x800 =
        none ↔
      ∀ e ∈ ([(0x1FFF, ⟨0x1000, 0x1000, 0⟩)] : MMapRegions Nat),
        e.1 ≠ lastAddr 0x1800 0x800) ∧
    (∀ rs', removeIORegion ([(0x1FFF, ⟨0x1000, 0x1000, 0⟩)] : MMapRegions Nat)
        0x1800 0x800 = some rs' →
      ∀ e, e ∈ rs' ↔
        (e ∈ ([(0x1FFF, ⟨0x1000, 0x1000, 0⟩)] : MMapRegions Nat) ∧
          e.1 ≠ lastAddr 0x1800 0x800))) :=
  ⟨by decide, removeIORegion_keyed_only _ 0x1800 0x800 (by decide)⟩

/-- C3.  `findMMapRegion` implements interval containment over disjoint
regions via the ceiling query on last-covered-address: for any well-formed
(disjoint) region map and address `a`, every registered region covering `a`
is the one returned, and the lookup returns `none` exactly when no
registered region covers `a`. -/
theorem findMMapRegion_ceiling_correct {ι : Type} (rs : MMapRegions ι) (a : Nat)
    (hwf : regionsWF rs) :
    (∀ e ∈ rs, covers e a → findMMapRegion rs a = some e.2) ∧
    (findMMapRegion rs a = none ↔ ∀ e ∈ rs, ¬ covers e a) :=
  ⟨fun e he hc => findMMapRegion_covers_eq hwf.2 he hc,
   findMMapRegion_none_iff hwf.2 a⟩

/-- C3 (witness): regions `[0x2000, 0x20FF]` and `[0x3000, 0x30FF]`; the
theorem applied at the gap address `0x2100`, plus the concrete boundary
lookups of the claim evaluated directly. -/
theorem findMMapRegion_ceiling_correct_witness :
    regionsWF ([(0x20FF, ⟨0x2000, 0x100, 0⟩), (0x30FF, ⟨0x3000, 0x100, 1⟩)] :
      MMapRegions Nat) ∧
    ((∀ e ∈ ([(0x20FF, ⟨0x2000, 0x100, 0⟩), (0x30FF, ⟨0x3000, 0x100, 1⟩)] :
        MMapRegions Nat), covers e 0x2100 →
      findMMapRegion
        ([(0x20FF, ⟨0x2000, 0x100, 0⟩), (0x30FF, ⟨0x3000, 0x100, 1⟩)] :
          MMapRegions Nat) 0x2100 = some e.2) ∧
    (findMMapRegion
        ([(0x20FF, ⟨0x2000, 0x100, 0⟩), (0x30FF, ⟨0x3000, 0x100, 1⟩)] :
          MMapRegions Nat) 0x2100 = none ↔
      ∀ e ∈ ([(0x20FF, ⟨0x2000, 0x100, 0⟩), (0x30FF, ⟨0x3000, 0x100, 1⟩)] :
        MMapRegions Nat), ¬ covers e 0x2100)) ∧
    findMMapRegion
      ([(0x20FF, ⟨0x2000, 0x100, 0⟩), (0x30FF, ⟨0x3000, 0x100, 1⟩)] :
        MMapRegions Nat) 0x2100 = none ∧
    findMMapRegion
      ([(0x20FF, ⟨0x2000, 0x100, 0⟩), (0x30FF, ⟨0x3000, 0x100, 1⟩)] :
        MMapRegions Nat) 0x2000 = some ⟨0x2000, 0x100, 0⟩ ∧
    findMMapRegion
      ([(0x20FF, ⟨0x2000, 0x100, 0⟩), (0x30FF, ⟨0x3000, 0x100, 1⟩)] :
        MMapRegions Nat) 0x20FF = some ⟨0x2000, 0x100, 0⟩ :=
  ⟨by decide, findMMapRegion_ceiling_correct _ 0x2100 (by decide), by decide,
   by decide, by decide⟩

/-- C4.  `reset()` clears the live byte store and replays every recorded
initialization segment in registration order: afterwards the live store's
contents equal exactly the union of all segments' writes with later segments
winning at overlapping bytes (`specSegmentsUnion`), and a second consecutive
`reset()` leaves the state identical.  The hypotheses record invariants of
real segments (keys are distinct `uint32_t` addresses, values are bytes). -/
theorem reset_replays_segments_idempotent (st : AddrSpace)
    (h : ∀ seg ∈ st.m_initializationMemories,
      (seg.map Prod.fst).Nodup ∧ ∀ e ∈ seg, e.1 < 4294967296 ∧ e.2 < 256) :
    (∀ a, storeLookup (reset st).m_data a =
      specSegmentsUnion st.m_initializationMemories a) ∧
    reset (reset st) = reset st := by
  constructor
  · intro a
    have hfold := reset_fold st.m_initializationMemories h [] a
    simpa [reset, specSegmentsUnion, storeLookup] using hfold
  · rfl

/-- C4 (witness): two overlapping segments `[(0, 1), (1, 2)]` and
`[(1, 5)]`, replayed over a dirty live store `[(7, 9)]`. -/
theorem reset_replays_segments_idempotent_witness :
    (∀ seg ∈ (AddrSpace.mk [(7, 9)] [[(0, 1), (1, 2)], [(1, 5)]]).m_initializationMemories,
      (seg.map Prod.fst).Nodup ∧ ∀ e ∈ seg, e.1 < 4294967296 ∧ e.2 < 256) ∧
    ((∀ a, storeLookup (reset (AddrSpace.mk [(7, 9)] [[(0, 1), (1, 2)], [(1, 5)]])).m_data a =
      specSegmentsUnion
        (AddrSpace.mk [(7, 9)] [[(0, 1), (1, 2)], [(1, 5)]]).m_initializationMemories a) ∧
    reset (reset (AddrSpace.mk [(7, 9)] [[(0, 1), (1, 2)], [(1, 5)]])) =
      reset (AddrSpace.mk [(7, 9)] [[(0, 1), (1, 2)], [(1, 5)]])) :=
  ⟨by decide, reset_replays_segments_idempotent _ (by decide)⟩

/-- C5.  Write/read round-trip on the plain byte store: for every address
`a`, width `w` at most the native word width 4, and value `v`,
`writeMem(a, v, w)` followed by reading `w` bytes at `a` with `readMem` or
`readMemConst` yields exactly `v` masked to its low `8 * w` bits.  Bytes are
stored and reassembled least-significant first and no alignment is
required. -/
theorem writeMem_readMem_roundtrip (s : Store) (a v w : Nat) (hw : w ≤ 4) :
    (readMem (writeMem s a v w) a w).1 = v % 2 ^ (8 * w) ∧
    readMemConst (writeMem s a v w) a w = v % 2 ^ (8 * w) := by
  have h01 : ¬ a % 4294967296 = (a + 1) % 4294967296 := by omega
  have h02 : ¬ a % 4294967296 = (a + 2) % 4294967296 := by omega
  have h03 : ¬ a % 4294967296 = (a + 3) % 4294967296 := by omega
  have h10 : ¬ (a + 1) % 4294967296 = a % 4294967296 := by omega
  have h12 : ¬ (a + 1) % 4294967296 = (a + 2) % 4294967296 := by omega
  have h13 : ¬ (a + 1) % 4294967296 = (a + 3) % 4294967296 := by omega
  have h20 : ¬ (a + 2) % 4294967296 = a % 4294967296 := by omega
  have h21 : ¬ (a + 2) % 4294967296 = (a + 1) % 4294967296 := by omega
  have h23 : ¬ (a + 2) % 4294967296 = (a + 3) % 4294967296 := by omega
  have h30 : ¬ (a + 3) % 4294967296 = a % 4294967296 := by omega
  have h31 : ¬ (a + 3) % 4294967296 = (a + 1) % 4294967296 := by omega
  have h32 : ¬ (a + 3) % 4294967296 = (a + 2) % 4294967296 := by omega
  interval_cases w
  · constructor <;> simp [readMem, readMemConst, writeMem, Nat.mod_one]
  · constructor
    · simp [readMem, writeMem, List.range_succ, mapIndex, storeLookup_storeSet,
        w32, and_255, shiftRight_eight, Nat.shiftLeft_eq]
      omega
    · simp [readMemConst, writeMem, contains, List.range_succ, mapIndex,
        storeLookup_storeSet, w32, and_255, shiftRight_eight, Nat.shiftLeft_eq]
      omega
  · constructor
    · simp [readMem, writeMem, List.range_succ, mapIndex, storeLookup_storeSet,
        h01, h10, w32, and_255, shiftRight_eight, Nat.shiftLeft_eq]
      rw [lor_mul_256 _ (by omega)]
      omega
    · simp [readMemConst, writeMem, contains, List.range_succ, mapIndex,
        storeLookup_storeSet, h01, h10, w32, and_255, shiftRight_eight,
        Nat.shiftLeft_eq]
      rw [lor_mul_256 _ (by omega)]
      omega
  · constructor
    · simp [readMem, writeMem, List.range_succ, mapIndex, storeLookup_storeSet,
        h01, h02, h10, h12, h20, h21, w32, and_255, shiftRight_eight,
        Nat.shiftLeft_eq]
      rw [lor_mul_256 _ (by omega), lor_mul_65536 _ (by omega)]
      omega
    · simp [readMemConst, writeMem, contains, List.range_succ, mapIndex,
        storeLookup_storeSet, h01, h02, h10, h12, h20, h21, w32, and_255,
        shiftRight_eight, Nat.shiftLeft_eq]
      rw [lor_mul_256 _ (by omega), lor_mul_65536 _ (by omega)]
      omega
  · constructor
    · simp [readMem, writeMem, List.range_succ, mapIndex, storeLookup_storeSet,
        h01, h02, h03, h10, h12, h13, h20, h21, h23, h30, h31, h32,
        w32, and_255, shiftRight_eight, Nat.shiftLeft_eq]
      rw [lor_mul_256 _ (by omega), lor_mul_65536 _ (by omega),
        lor_mul_16777216 _ (by omega)]
      omega
    · simp [readMemConst, writeMem, contains, List.range_succ, mapIndex,
        storeLookup_storeSet, h01, h02, h03, h10, h12, h13, h20, h21, h23,
        h30, h31, h32, w32, and_255, shiftRight_eight, Nat.shiftLeft_eq]
      rw [lor_mul_256 _ (by omega), lor_mul_65536 _ (by omega),
        lor_mul_16777216 _ (by omega)]
      omega

/-- C5 (witness): a 4-byte round trip of `0xDEADBEEF` at address 100 on the
empty store. -/
theorem writeMem_readMem_roundtrip_witness :
    (4 : Nat) ≤ 4 ∧
    ((readMem (writeMem [] 100 0xDEADBEEF 4) 100 4).1 = 0xDEADBEEF % 2 ^ (8 * 4) ∧
    readMemConst (writeMem [] 100 0xDEADBEEF 4) 100 4 = 0xDEADBEEF % 2 ^ (8 * 4)) :=
  ⟨by decide, writeMem_readMem_roundtrip [] 100 0xDEADBEEF 4 (by decide)⟩

/-- C6.  `readMemConst` never mutates the byte store: as a `const` method
whose body performs only `contains` probes and guarded `at` lookups, the
store after the call is the store before it; in particular an address never
written still fails the `contains` check afterwards, and when every probed
byte is absent the assembled result is 0. -/
theorem readMemConst_never_mutates (s : Store) (address width x : Nat)
    (hx : storeLookup s x = none) :
    (readMemConstCall s address width).2 = s ∧
    contains (readMemConstCall s address width).2 x = false ∧
    ((∀ i, i < width → storeLookup s (w32 (address + i)) = none) →
      (readMemConstCall s address width).1 = 0) :=
  ⟨rfl, by simp [readMemConstCall, contains, hx],
   fun h => readMemConst_absent_zero s address width h⟩

/-- C6 (witness): a 4-byte const read at address 5 of the empty store,
checking address 5 itself. -/
theorem readMemConst_never_mutates_witness :
    storeLookup [] 5 = none ∧
    ((readMemConstCall [] 5 4).2 = [] ∧
    contains (readMemConstCall [] 5 4).2 5 = false ∧
    ((∀ i, i < 4 → storeLookup [] (w32 (5 + i)) = none) →
      (readMemConstCall [] 5 4).1 = 0)) :=
  ⟨by decide, readMemConst_never_mutates [] 5 4 5 (by decide)⟩

/-- C7.  On a well-formed `AddressSpaceMM`, every `writeMem`, `readMem`, and
`readMemConst` whose address is covered by a registered region forwards to
that region's I/O callback with the address rebased to
`address - region.base` and the unchanged size/width argument, leaving the
sparse byte store untouched; and when no region covers the address, the
base-class behavior applies unchanged. -/
theorem mm_dispatch_rebases_address {ι : Type} (st : MMState ι) (a v sz w : Nat)
    (hwf : regionsWF st.regions) :
    (∀ e ∈ st.regions, covers e a →
      writeMemMM st a v sz = WriteEffect.ioFwd e.2.io (a - e.2.base) v sz ∧
      readMemMM st a w = ReadEffect.ioFwd e.2.io (a - e.2.base) w ∧
      readMemConstMM st a w = ConstReadEffect.ioFwd e.2.io (a - e.2.base) w) ∧
    ((∀ e ∈ st.regions, ¬ covers e a) →
      writeMemMM st a v sz = WriteEffect.storeWrite (writeMem st.data a v sz) ∧
      readMemMM st a w =
        ReadEffect.storeRead (readMem st.data a w).1 (readMem st.data a w).2 ∧
      readMemConstMM st a w =
        ConstReadEffect.storeRead (readMemConst st.data a w)) := by
  constructor
  · intro e he hc
    have hf := findMMapRegion_covers_eq hwf.2 he hc
    exact ⟨by rw [writeMemMM, hf], by rw [readMemMM, hf], by rw [readMemConstMM, hf]⟩
  · intro h
    have hf := (findMMapRegion_none_iff hwf.2 a).2 h
    exact ⟨by rw [writeMemMM, hf], by rw [readMemMM, hf], by rw [readMemConstMM, hf]⟩

/-- C7 (witness): a single region `[0x1000, 0x100F]` with payload 7, probed
at the covered address `0x1005` (the forwarded offset is `0x5`). -/
theorem mm_dispatch_rebases_address_witness :
    regionsWF (MMState.mk [] [(0x100F, ⟨0x1000, 0x10, 7⟩)] : MMState Nat).regions ∧
    ((∀ e ∈ (MMState.mk [] [(0x100F, ⟨0x1000, 0x10, 7⟩)] : MMState Nat).regions,
      covers e 0x1005 →
      writeMemMM (MMState.mk [] [(0x100F, ⟨0x1000, 0x10, 7⟩)]) 0x1005 42 1 =
        WriteEffect.ioFwd e.2.io (0x1005 - e.2.base) 42 1 ∧
      readMemMM (MMState.mk [] [(0x100F, ⟨0x1000, 0x10, 7⟩)]) 0x1005 1 =
        ReadEffect.ioFwd e.2.io (0x1005 - e.2.base) 1 ∧
      readMemConstMM (MMState.mk [] [(0x100F, ⟨0x1000, 0x10, 7⟩)]) 0x1005 1 =
        ConstReadEffect.ioFwd e.2.io (0x1005 - e.2.base) 1) ∧
    ((∀ e ∈ (MMState.mk [] [(0x100F, ⟨0x1000, 0x10, 7⟩)] : MMState Nat).regions,
      ¬ covers e 0x1005) →
      writeMemMM (MMState.mk [] [(0x100F, ⟨0x1000, 0x10, 7⟩)]) 0x1005 42 1 =
        WriteEffect.storeWrite (writeMem [] 0x1005 42 1) ∧
      readMemMM (MMState.mk [] [(0x100F, ⟨0x1000, 0x10, 7⟩)]) 0x1005 1 =
        ReadEffect.storeRead (readMem [] 0x1005 1).1 (readMem [] 0x1005 1).2 ∧
      readMemConstMM (MMState.mk [] [(0x100F, ⟨0x1000, 0x10, 7⟩)]) 0x1005 1 =
        ConstReadEffect.storeRead (readMemConst [] 0x1005 1))) :=
  ⟨by decide, mm_dispatch_rebases_address (MMState.mk [] [(0x100F, ⟨0x1000, 0x10, 7⟩)])
    0x1005 42 1 1 (by decide)⟩

/-- C8.  Unwritten-is-zero totality: for an address not covered by any
registered region and whose probed bytes were never written, `readMem`
dispatches to the byte store and returns value 0, `readMemConst` returns 0,
and `contains` reports false; the reads are defined behavior (total
functions), not errors. -/
theorem unwritten_reads_zero {ι : Type} (st : MMState ι) (a w : Nat)
    (hwf : regionsWF st.regions) (hw : 0 < w)
    (hnc : ∀ e ∈ st.regions, ¬ covers e a)
    (habs : ∀ i, i < w → storeLookup st.data (w32 (a + i)) = none) :
    readMemMM st a w = ReadEffect.storeRead 0 (readMem st.data a w).2 ∧
    readMemConstMM st a w = ConstReadEffect.storeRead 0 ∧
    contains st.data (w32 a) = false := by
  have hf := (findMMapRegion_none_iff hwf.2 a).2 hnc
  refine ⟨?_, ?_, ?_⟩
  · rw [readMemMM, hf,
      (readMem_absent_zero st.data a w (fun i hi => Or.inl (habs i hi))).1]
  · rw [readMemConstMM, hf, readMemConst_absent_zero st.data a w habs]
  · have h0 := habs 0 hw
    rw [Nat.add_zero] at h0
    simp [contains, h0]

/-- C8 (witness): the region map holds `[0x1000, 0x100F]`; address `0x20`
is outside it and the byte store is empty. -/
theorem unwritten_reads_zero_witness :
    regionsWF (MMState.mk [] [(0x100F, ⟨0x1000, 0x10, 0⟩)] : MMState Nat).regions ∧
    (0 : Nat) < 4 ∧
    (∀ e ∈ (MMState.mk [] [(0x100F, ⟨0x1000, 0x10, 0⟩)] : MMState Nat).regions,
      ¬ covers e 0x20) ∧
    (∀ i, i < 4 → storeLookup [] (w32 (0x20 + i)) = none) ∧
    (readMemMM (MMState.mk [] [(0x100F, ⟨0x1000, 0x10, 0⟩)] : MMState Nat) 0x20 4 =
      ReadEffect.storeRead 0 (readMem [] 0x20 4).2 ∧
    readMemConstMM (MMState.mk [] [(0x100F, ⟨0x1000, 0x10, 0⟩)] : MMState Nat) 0x20 4 =
      ConstReadEffect.storeRead 0 ∧
    contains [] (w32 0x20) = false) :=
  ⟨by decide, by decide, by decide, by decide,
   unwritten_reads_zero (MMState.mk [] [(0x100F, ⟨0x1000, 0x10, 0⟩)]) 0x20 4
     (by decide) (by decide) (by decide) (by decide)⟩

/-- C9.  `AddressSpaceMM::regionType` classifies an address as `IO` exactly
when a registered region covers it and as `Program` otherwise, while the
base class's `regionType` reports `Program` for every address. -/
theorem regionType_io_iff_covered {ι : Type} (rs : MMapRegions ι) (a : Nat)
    (hwf : regionsWF rs) :
    (regionTypeMM rs a = RegionType.Io ↔ ∃ e ∈ rs, covers e a) ∧
    (regionTypeMM rs a = RegionType.Program ↔ ¬ ∃ e ∈ rs, covers e a) ∧
    baseRegionType a = RegionType.Program := by
  have key : regionTypeMM rs a = RegionType.Io ↔ ∃ e ∈ rs, covers e a := by
    constructor
    · intro h
      by_contra hne
      push_neg at hne
      have hn := (findMMapRegion_none_iff hwf.2 a).2 hne
      rw [regionTypeMM, hn] at h
      cases h
    · rintro ⟨e, he, hc⟩
      rw [regionTypeMM, findMMapRegion_covers_eq hwf.2 he hc]
  have dichotomy : regionTypeMM rs a = RegionType.Io ∨
      regionTypeMM rs a = RegionType.Program := by
    rw [regionTypeMM]
    cases findMMapRegion rs a <;> simp
  refine ⟨key, ⟨?_, ?_⟩, rfl⟩
  · intro h hex
    have hio := key.mpr hex
    rw [h] at hio
    cases hio
  · intro h
    rcases dichotomy with hio | hp
    · exact absurd (key.mp hio) h
    · exact hp

/-- C9 (witness): the single region `[0x1000, 0x100F]`, classified at the
covered address `0x1005`. -/
theorem regionType_io_iff_covered_witness :
    regionsWF ([(0x100F, ⟨0x1000, 0x10, 0⟩)] : MMapRegions Nat) ∧
    ((regionTypeMM ([(0x100F, ⟨0x1000, 0x10, 0⟩)] : MMapRegions Nat) 0x1005 =
        RegionType.Io ↔
      ∃ e ∈ ([(0x100F, ⟨0x1000, 0x10, 0⟩)] : MMapRegions Nat), covers e 0x1005) ∧
    (regionTypeMM ([(0x100F, ⟨0x1000, 0x10, 0⟩)] : MMapRegions Nat) 0x1005 =
        RegionType.Program ↔
      ¬ ∃ e ∈ ([(0x100F, ⟨0x1000, 0x10, 0⟩)] : MMapRegions Nat), covers e 0x1005) ∧
    baseRegionType 0x1005 = RegionType.Program) :=
  ⟨by decide, regionType_io_iff_covered _ 0x1005 (by decide)⟩

/-- C10.  Region dispatch consults only the starting address of an access:
when the starting address of a multi-byte `writeMem` or `readMem` is not
covered by any registered region, the whole access goes to the sparse byte
store — even when `address + size - 1` falls inside a registered region, as
the explicitly satisfiable spanning hypothesis records — and no region
callback is invoked; accesses are never split between store and region. -/
theorem mm_dispatch_start_address_only {ι : Type} (st : MMState ι) (a v sz : Nat)
    (hwf : regionsWF st.regions)
    (hnc : ∀ e ∈ st.regions, ¬ covers e a)
    (hspan : ∃ e ∈ st.regions, covers e (a + sz - 1)) :
    writeMemMM st a v sz = WriteEffect.storeWrite (writeMem st.data a v sz) ∧
    readMemMM st a sz =
      ReadEffect.storeRead (readMem st.data a sz).1 (readMem st.data a sz).2 := by
  have hf := (findMMapRegion_none_iff hwf.2 a).2 hnc
  exact ⟨by rw [writeMemMM, hf], by rw [readMemMM, hf]⟩

/-- C10 (witness): region `[0x1000, 0x10FF]`, 4-byte access starting at
`0xFFE`, so the last accessed byte `0x1001` lies inside the region while the
starting address does not. -/
theorem mm_dispatch_start_address_only_witness :
    regionsWF (MMState.mk [] [(0x10FF, ⟨0x1000, 0x100, 0⟩)] : MMState Nat).regions ∧
    (∀ e ∈ (MMState.mk [] [(0x10FF, ⟨0x1000, 0x100, 0⟩)] : MMState Nat).regions,
      ¬ covers e 0xFFE) ∧
    (∃ e ∈ (MMState.mk [] [(0x10FF, ⟨0x1000, 0x100, 0⟩)] : MMState Nat).regions,
      covers e (0xFFE + 4 - 1)) ∧
    (writeMemMM (MMState.mk [] [(0x10FF, ⟨0x1000, 0x100, 0⟩)] : MMState Nat) 0xFFE 99 4 =
      WriteEffect.storeWrite (writeMem [] 0xFFE 99 4) ∧
    readMemMM (MMState.mk [] [(0x10FF, ⟨0x1000, 0x100, 0⟩)] : MMState Nat) 0xFFE 4 =
      ReadEffect.storeRead (readMem [] 0xFFE 4).1 (readMem [] 0xFFE 4).2) :=
  ⟨by decide, by decide, by decide,
   mm_dispatch_start_address_only (MMState.mk [] [(0x10FF, ⟨0x1000, 0x100, 0⟩)])
     0xFFE 99 4 (by decide) (by decide) (by decide)⟩

end VSRTL
